import Mathlib

/-!
Verification of the receipt-processing pipeline of `ocr_processor.py`
(functions `convert_to_valid_json` and `process_receipt`).

The Python code is shallowly embedded:
  - Python strings are `List Char` (wrapped into `String` at the interfaces);
  - the regular-expression operations of the source are embedded by their
    semantics on the concrete patterns the source uses (leftmost-match
    scanning, greedy or non-greedy extent, as documented on each definition);
  - `json.loads` is embedded as a fuel-based recursive-descent parser for the
    JSON grammar (numbers become rationals: integer literals and decimal
    literals are exact; IEEE-754 rounding, `Infinity` and `NaN` are outside
    the model);
  - the effectful pipeline `process_receipt` is embedded as a function over
    an environment record holding the results of its external calls
    (file check, image decode, the OCR text of each profile, the model
    response), returning the Python return value together with the list of
    pipeline stages that were entered.
All definitions are executable; recursion that is not structural takes an
explicit fuel argument, with `fuel = 0` returning the remaining input
unchanged (the wrappers always supply sufficient fuel).
-/

namespace OCRProc

/-- The apostrophe character `'`. -/
def squote : Char := Char.ofNat 39

/-- The backslash character `\`. -/
def bslash : Char := Char.ofNat 92

/-- The opening-brace character. -/
def lbrace : Char := Char.ofNat 123

/-- The closing-brace character. -/
def rbrace : Char := Char.ofNat 125

/-- ASCII whitespace, the characters matched by the regex class `\s`
(and stripped from both ends by Python `str.strip`): space, tab, newline,
carriage return, vertical tab, form feed. -/
def isWsChar (c : Char) : Bool :=
  c = ' ' || c = Char.ofNat 9 || c = Char.ofNat 10 || c = Char.ofNat 13 ||
  c = Char.ofNat 11 || c = Char.ofNat 12

/-- `isPre p s` holds when `p` is a prefix of `s` (character lists). -/
def isPre : List Char → List Char → Bool
  | [], _ => true
  | _ :: _, [] => false
  | a :: p, b :: s => a = b && isPre p s

/-- `containsSub p s` holds when `p` occurs as a contiguous substring of `s`. -/
def containsSub (p : List Char) : List Char → Bool
  | [] => isPre p []
  | c :: rest => isPre p (c :: rest) || containsSub p rest

/-- Index of the first occurrence of character `c` in a list, if any. -/
def firstIdx (c : Char) : List Char → Option Nat
  | [] => none
  | a :: t => if a = c then some 0 else (firstIdx c t).map (· + 1)

/-- Index of the last occurrence of character `c` in a list, if any. -/
def lastIdx (c : Char) : List Char → Option Nat
  | [] => none
  | a :: t =>
    match lastIdx c t with
    | some k => some (k + 1)
    | none => if a = c then some 0 else none

/-- Index of the first position where `p` starts as a substring, if any. -/
def findSub (p : List Char) : List Char → Option Nat
  | [] => if isPre p [] then some 0 else none
  | c :: rest =>
    if isPre p (c :: rest) then some 0
    else (findSub p rest).map (· + 1)

/-- Python `str.replace old new`: left-to-right scan replacing each
non-overlapping occurrence of `old` (nonempty) by `new`.
Fuel-based; fuel `= length` of the scanned list suffices. -/
def replaceF (old new : List Char) : Nat → List Char → List Char
  | 0, s => s
  | _, [] => []
  | fuel + 1, c :: rest =>
    if old ≠ [] ∧ isPre old (c :: rest) then
      new ++ replaceF old new fuel ((c :: rest).drop old.length)
    else
      c :: replaceF old new fuel rest

/-- Python `s.replace(old, new)` on strings. -/
def pyReplace (old new s : String) : String :=
  String.mk (replaceF old.data new.data s.data.length s.data)

/-- Embedding of `re.sub(r'//.*$', '', s, flags=re.MULTILINE)`:
in each line, the first `//` and everything up to (excluding) the next
newline is removed. -/
def stripLineCommentsF : Nat → List Char → List Char
  | 0, s => s
  | _, [] => []
  | fuel + 1, c :: rest =>
    if c = '/' ∧ rest.head? = some '/' then
      stripLineCommentsF fuel ((c :: rest).dropWhile (fun d => decide (d ≠ Char.ofNat 10)))
    else
      c :: stripLineCommentsF fuel rest

/-- Embedding of `re.sub(r'/\*.*?\*/', '', s, flags=re.DOTALL)`:
left-to-right scan; at each `/*`, the shortest span ending in `*/` is
removed and the scan resumes after it; a `/*` with no later `*/` is kept. -/
def stripBlockCommentsF : Nat → List Char → List Char
  | 0, s => s
  | _, [] => []
  | fuel + 1, c :: rest =>
    if c = '/' ∧ rest.head? = some '*' then
      match findSub ['*', '/'] (rest.drop 1) with
      | some k => stripBlockCommentsF fuel ((rest.drop 1).drop (k + 2))
      | none => c :: stripBlockCommentsF fuel rest
    else
      c :: stripBlockCommentsF fuel rest

/-- Embedding of `re.sub(r"(?<!\\)'([^']*)'", r'"\1"', s)`:
left-to-right scan; a single quote not immediately preceded by a backslash
(`prev` is the previous character of the original text, initially a
sentinel) opens a match that runs to the next single quote, and both
quotes are rewritten to double quotes; if no closing quote exists the text
is left as is. -/
def rewriteSQF (prev : Char) : Nat → List Char → List Char
  | 0, s => s
  | _, [] => []
  | fuel + 1, c :: rest =>
    if c = squote ∧ prev ≠ bslash then
      match firstIdx squote rest with
      | some k => '"' :: rest.take k ++ '"' :: rewriteSQF squote fuel (rest.drop (k + 1))
      | none => c :: rest
    else
      c :: rewriteSQF c fuel rest

/-- Embedding of `re.sub(r',\s*X', 'X', s)` for a closing character `X`
(`}` or `]`): a comma followed by optional whitespace and `X` is replaced
by `X`, scanning left to right. -/
def stripTrailingCommaF (close : Char) : Nat → List Char → List Char
  | 0, s => s
  | _, [] => []
  | fuel + 1, c :: rest =>
    if c = ',' then
      match rest.dropWhile isWsChar with
      | b :: after => if b = close then close :: stripTrailingCommaF close fuel after
                      else c :: stripTrailingCommaF close fuel rest
      | [] => c :: stripTrailingCommaF close fuel rest
    else
      c :: stripTrailingCommaF close fuel rest

/-- The literal phrase replaced by the repair step
(`'"price": missing (cannot extract price)'`). -/
def pricePhrase : List Char :=
  '"' :: 'p' :: 'r' :: 'i' :: 'c' :: 'e' :: '"' :: ':' :: ' ' ::
  "missing (cannot extract price)".data

/-- Its replacement (`'"price": null'`). -/
def priceNullPhrase : List Char :=
  '"' :: 'p' :: 'r' :: 'i' :: 'c' :: 'e' :: '"' :: ':' :: ' ' :: "null".data

/-- `convert_to_valid_json` of `ocr_processor.py` on character lists: the
repair-rule chain, in source order — line comments, block comments,
single-to-double quote rewrite, price-phrase replacement, `None` to
`null`, trailing commas before `}`, trailing commas before `]`.
(The `try/except` of the source can never fire on a string input, so the
embedding is total.) -/
def convertChars (s : List Char) : List Char :=
  let s1 := stripLineCommentsF s.length s
  let s2 := stripBlockCommentsF s1.length s1
  let s3 := rewriteSQF (Char.ofNat 0) s2.length s2
  let s4 := replaceF pricePhrase priceNullPhrase s3.length s3
  let s5 := replaceF "None".data "null".data s4.length s4
  let s6 := stripTrailingCommaF rbrace s5.length s5
  let s7 := stripTrailingCommaF ']' s6.length s6
  s7

/-- `convert_to_valid_json` on strings. -/
def convert_to_valid_json (s : String) : String :=
  String.mk (convertChars s.data)

/-! ## Locating the JSON payload in the model response (lines 112-129) -/

/-- Embedding of `re.search(rX, s, re.DOTALL)` for a pattern of the shape
`open .* close` (greedy): start positions are scanned left to right; a
match starts at an occurrence of `open` that has an occurrence of `close`
strictly after it, and the greedy `.*` extends the match to the last such
`close` in the string. -/
def reSearchSpan (op cl : Char) : List Char → Option (List Char)
  | [] => none
  | c :: rest =>
    if c = op then
      match lastIdx cl rest with
      | some k => some (c :: rest.take (k + 1))
      | none => reSearchSpan op cl rest
    else reSearchSpan op cl rest

/-- Embedding of `re.finditer` for the non-greedy pattern `open .*? close`:
left-to-right non-overlapping scan; each match runs from an `open` to the
nearest following `close`, and scanning resumes after the match.
Fuel-based; fuel `= length` suffices. -/
def finditerSpanF (op cl : Char) : Nat → List Char → List (List Char)
  | 0, _ => []
  | _, [] => []
  | fuel + 1, c :: rest =>
    if c = op then
      match firstIdx cl rest with
      | some k => (c :: rest.take (k + 1)) :: finditerSpanF op cl fuel (rest.drop (k + 1))
      | none => finditerSpanF op cl fuel rest
    else finditerSpanF op cl fuel rest

/-- Comma-join of character lists (`",".join` of the source). -/
def joinComma : List (List Char) → List Char
  | [] => []
  | [s] => s
  | s :: rest => s ++ ',' :: joinComma rest

/-- The JSON-candidate location logic of `process_receipt` (lines 112-129):
greedy array span; else greedy object span wrapped in brackets and
re-searched; else all non-greedy object spans comma-joined into a
synthesized array; else no candidate (`NoStructuredDataError`). The
fallback scan operates on the possibly rewritten response, exactly as the
source mutates `response_content`. -/
def locateJson (resp : List Char) : Option (List Char) :=
  match reSearchSpan '[' ']' resp with
  | some m => some m
  | none =>
    match reSearchSpan lbrace rbrace resp with
    | some obj =>
      let resp2 := '[' :: (obj ++ [']'])
      match reSearchSpan '[' ']' resp2 with
      | some m => some m
      | none =>
        match finditerSpanF lbrace rbrace resp2.length resp2 with
        | [] => none
        | spans => some ('[' :: (joinComma spans ++ [']']))
    | none =>
      match finditerSpanF lbrace rbrace resp.length resp with
      | [] => none
      | spans => some ('[' :: (joinComma spans ++ [']']))

/-! ## JSON values and `json.loads` -/

/-- Parsed JSON values, as produced by Python `json.loads`: `null`,
booleans, integers (from integer literals), floats (from literals with a
fractional part or exponent; modelled as exact rationals), strings,
arrays, and objects (association lists in source order; with duplicate
keys the last binding wins, as in a Python dict). -/
inductive JValue where
  | null : JValue
  | bool (b : Bool) : JValue
  | intg (n : Int) : JValue
  | num (q : ℚ) : JValue
  | str (s : String) : JValue
  | arr (elems : List JValue) : JValue
  | obj (fields : List (String × JValue)) : JValue

/-- JSON inter-token whitespace: space, tab, newline, carriage return. -/
def isJsonWs (c : Char) : Bool :=
  c = ' ' || c = Char.ofNat 9 || c = Char.ofNat 10 || c = Char.ofNat 13

/-- Skip JSON whitespace. -/
def skipWs (s : List Char) : List Char := s.dropWhile isJsonWs

/-- Numeric value of a digit list. -/
def digitsVal (l : List Char) : Nat :=
  l.foldl (fun a c => a * 10 + (c.toNat - 48)) 0

/-- Hexadecimal digit test. -/
def isHexDig (c : Char) : Bool :=
  c.isDigit || (97 ≤ c.toNat && c.toNat ≤ 102) || (65 ≤ c.toNat && c.toNat ≤ 70)

/-- Hexadecimal digit value. -/
def hexVal (c : Char) : Nat :=
  if c.isDigit then c.toNat - 48
  else if c.toNat ≥ 97 then c.toNat - 87
  else c.toNat - 55

/-- Decoding of a single-character JSON escape. -/
def escChar (e : Char) : Option Char :=
  if e = '"' then some '"'
  else if e = bslash then some bslash
  else if e = '/' then some '/'
  else if e = 'b' then some (Char.ofNat 8)
  else if e = 'f' then some (Char.ofNat 12)
  else if e = 'n' then some (Char.ofNat 10)
  else if e = 'r' then some (Char.ofNat 13)
  else if e = 't' then some (Char.ofNat 9)
  else none

/-- Parse a JSON string-literal body (after the opening quote), returning
the decoded characters and the remaining input. Escapes `\" \\ \/ \b \f
\n \r \t \uXXXX` are decoded; raw control characters are rejected (strict
mode of `json.loads`). -/
def parseStringBodyF : Nat → List Char → Option (List Char × List Char)
  | 0, _ => none
  | _, [] => none
  | fuel + 1, c :: rest =>
    if c = '"' then some ([], rest)
    else if c = bslash then
      match rest with
      | [] => none
      | e :: rest2 =>
        if e = 'u' then
          match rest2 with
          | h1 :: h2 :: h3 :: h4 :: rest3 =>
            if isHexDig h1 && isHexDig h2 && isHexDig h3 && isHexDig h4 then
              match parseStringBodyF fuel rest3 with
              | some (cs, rem) =>
                some (Char.ofNat (4096 * hexVal h1 + 256 * hexVal h2 + 16 * hexVal h3 + hexVal h4) :: cs, rem)
              | none => none
            else none
          | _ => none
        else
          match escChar e with
          | some d =>
            match parseStringBodyF fuel rest2 with
            | some (cs, rem) => some (d :: cs, rem)
            | none => none
          | none => none
    else if c.toNat < 32 then none
    else
      match parseStringBodyF fuel rest with
      | some (cs, rem) => some (c :: cs, rem)
      | none => none

/-- Parse a JSON number at the head of the input, following the grammar of
Python's `json` scanner: `-? (0 | [1-9][0-9]*) (\. [0-9]+)? ([eE][-+]?[0-9]+)?`.
Integer literals (no fraction, no exponent) yield `JValue.intg`, the rest
`JValue.num`. -/
def parseNumber (s : List Char) : Option (JValue × List Char) :=
  let signNeg := s.head? = some '-'
  let s1 := if signNeg then s.drop 1 else s
  match s1 with
  | [] => none
  | d :: _ =>
    if ¬ d.isDigit then none
    else
      let intD := if d = '0' then ['0'] else s1.takeWhile Char.isDigit
      if d = '0' ∨ d ≠ '0' ∧ intD ≠ [] then
        let s2 := s1.drop intD.length
        let hasFrac := s2.head? = some '.' ∧ (s2.drop 1).head?.any Char.isDigit
        let fracD := if hasFrac then (s2.drop 1).takeWhile Char.isDigit else []
        let s3 := if hasFrac then (s2.drop 1).drop fracD.length else s2
        let expSignLen : Nat :=
          match s3 with
          | x :: y :: _ => if (x = 'e' ∨ x = 'E') ∧ (y = '+' ∨ y = '-') then 2 else 1
          | _ => 1
        let hasExp := (s3.head?.any (fun x => x = 'e' || x = 'E')) ∧
                      ((s3.drop expSignLen).head?.any Char.isDigit)
        let expD := if hasExp then (s3.drop expSignLen).takeWhile Char.isDigit else []
        let expNeg := hasExp ∧ expSignLen = 2 ∧ (s3.drop 1).head? = some '-'
        let s4 := if hasExp then (s3.drop expSignLen).drop expD.length else s3
        let mag : ℚ := (digitsVal intD : ℚ) + (digitsVal fracD : ℚ) / ((10 : ℚ) ^ fracD.length)
        let expQ : ℚ := if expNeg then ((10 : ℚ) ^ digitsVal expD)⁻¹ else (10 : ℚ) ^ digitsVal expD
        let v : ℚ := (if signNeg then -mag else mag) * expQ
        if hasFrac ∨ hasExp then some (.num v, s4)
        else some (.intg (if signNeg then -(digitsVal intD : Int) else (digitsVal intD : Int)), s4)
      else none

mutual

/-- Parse one JSON value (leading whitespace allowed), returning the value
and the remaining input. Fuel-based recursive descent mirroring
`json.loads` (`NaN` and `Infinity` literals are outside the model). -/
def parseValF : Nat → List Char → Option (JValue × List Char)
  | 0, _ => none
  | fuel + 1, s =>
    match skipWs s with
    | [] => none
    | c :: rest =>
      if c = lbrace then
        match skipWs rest with
        | [] => none
        | b :: r2 =>
          if b = rbrace then some (.obj [], r2)
          else
            match parseObjElemsF fuel (b :: r2) with
            | some (fs, rem) => some (.obj fs, rem)
            | none => none
      else if c = '[' then
        match skipWs rest with
        | [] => none
        | b :: r2 =>
          if b = ']' then some (.arr [], r2)
          else
            match parseArrElemsF fuel (b :: r2) with
            | some (vs, rem) => some (.arr vs, rem)
            | none => none
      else if c = '"' then
        match parseStringBodyF rest.length rest with
        | some (cs, rem) => some (.str (String.mk cs), rem)
        | none => none
      else if c = 't' then
        if isPre "rue".data rest then some (.bool true, rest.drop 3) else none
      else if c = 'f' then
        if isPre "alse".data rest then some (.bool false, rest.drop 4) else none
      else if c = 'n' then
        if isPre "ull".data rest then some (.null, rest.drop 3) else none
      else parseNumber (c :: rest)

/-- Parse the elements of a non-empty JSON array, positioned at the first
character of a value; consumes through the closing bracket. -/
def parseArrElemsF : Nat → List Char → Option (List JValue × List Char)
  | 0, _ => none
  | fuel + 1, s =>
    match parseValF fuel s with
    | none => none
    | some (v, s1) =>
      match skipWs s1 with
      | ',' :: s2 =>
        match parseArrElemsF fuel s2 with
        | some (vs, rem) => some (v :: vs, rem)
        | none => none
      | ']' :: s2 => some ([v], s2)
      | _ => none

/-- Parse the members of a non-empty JSON object, positioned at the first
character of a key; consumes through the closing brace. -/
def parseObjElemsF : Nat → List Char → Option (List (String × JValue) × List Char)
  | 0, _ => none
  | fuel + 1, s =>
    match s with
    | '"' :: r =>
      match parseStringBodyF r.length r with
      | none => none
      | some (key, s1) =>
        match skipWs s1 with
        | ':' :: s2 =>
          match parseValF fuel s2 with
          | none => none
          | some (v, s3) =>
            match skipWs s3 with
            | ',' :: s4 =>
              match parseObjElemsF fuel (skipWs s4) with
              | some (fs, rem) => some ((String.mk key, v) :: fs, rem)
              | none => none
            | b :: s4 =>
              if b = rbrace then some ([(String.mk key, v)], s4) else none
            | [] => none
        | _ => none
    | _ => none

end

/-- Embedding of `json.loads`: parse one value and require only whitespace
to remain (otherwise Python raises, which the pipeline turns into a
failure). -/
def json_loads (s : String) : Option JValue :=
  match parseValF (2 * s.data.length + 2) s.data with
  | some (v, rem) => if skipWs rem = [] then some v else none
  | none => none

/-! ## Python `str` and `float` coercions used by the validator -/

/-- Python `str` of an integer. -/
def intToStr (n : Int) : String :=
  if n < 0 then "-" ++ Nat.repr n.natAbs else Nat.repr n.natAbs

/-- Decimal digits of the fractional part `r / d` by long division
(stops at the fuel bound or when the remainder is zero). -/
def fracDigits : Nat → Nat → Nat → List Char
  | 0, _, _ => []
  | _, 0, _ => []
  | fuel + 1, r, d =>
    Char.ofNat (48 + r * 10 / d) :: fracDigits fuel (r * 10 % d) d

/-- Python `str` of a float, for the decimal values `json.loads` produces:
sign, integer part, a point, and the fractional digits (`"5.0"` when the
value is integral), matching CPython's shortest-representation output on
decimal literals. -/
def floatToStr (q : ℚ) : String :=
  let n := q.num.natAbs
  let d := q.den
  let frac := fracDigits 30 (n % d) d
  (if q < 0 then "-" else "") ++ Nat.repr (n / d) ++ "." ++
    String.mk (if frac = [] then ['0'] else frac)

/-- Python `repr` of a parsed JSON value (used by `str` on containers);
the fuel bounds the nesting depth. -/
def pyRepr : Nat → JValue → String
  | _, .null => "None"
  | _, .bool true => "True"
  | _, .bool false => "False"
  | _, .intg n => intToStr n
  | _, .num q => floatToStr q
  | _, .str s => String.mk (squote :: s.data ++ [squote])
  | 0, .arr _ => "[?]"
  | 0, .obj _ => String.mk [lbrace, '?', rbrace]
  | fuel + 1, .arr l =>
    "[" ++ String.intercalate ", " (l.map (pyRepr fuel)) ++ "]"
  | fuel + 1, .obj fs =>
    String.mk [lbrace] ++
      String.intercalate ", "
        (fs.map (fun kv => String.mk (squote :: kv.1.data ++ [squote]) ++ ": " ++ pyRepr fuel kv.2)) ++
      String.mk [rbrace]

/-- Python `str` of a parsed JSON value: identity on strings, `repr`-style
output on everything else (`None`, `True`, numerals, containers). -/
def pyStr : JValue → String
  | .str s => s
  | v => pyRepr 100 v

/-- Both-ends ASCII-whitespace strip (Python `str.strip()`). -/
def stripWsBoth (l : List Char) : List Char :=
  ((l.dropWhile isWsChar).reverse.dropWhile isWsChar).reverse

/-- Python `str.strip()` on strings. -/
def pyStrip (s : String) : String := String.mk (stripWsBoth s.data)

/-- Embedding of Python `float(text)` on the texts reachable here: optional
sign, decimal digits with optional point and optional exponent, no other
form (the `inf`/`nan` words and digit underscores of CPython are outside
the model). Returns `none` exactly when CPython raises `ValueError`. -/
def pyFloat (s : String) : Option ℚ :=
  let t := stripWsBoth s.data
  let signNeg := t.head? = some '-'
  let t1 := if t.head? = some '-' ∨ t.head? = some '+' then t.drop 1 else t
  let intD := t1.takeWhile Char.isDigit
  let r1 := t1.drop intD.length
  let hasPoint := r1.head? = some '.'
  let fracD := if hasPoint then (r1.drop 1).takeWhile Char.isDigit else []
  let r2 := if hasPoint then (r1.drop 1).drop fracD.length else r1
  if intD = [] ∧ fracD = [] then none
  else
    let mag : ℚ := (digitsVal intD : ℚ) + (digitsVal fracD : ℚ) / ((10 : ℚ) ^ fracD.length)
    match r2 with
    | [] => some (if signNeg then -mag else mag)
    | x :: r3 =>
      if x = 'e' ∨ x = 'E' then
        let eNeg := r3.head? = some '-'
        let r4 := if r3.head? = some '-' ∨ r3.head? = some '+' then r3.drop 1 else r3
        let expD := r4.takeWhile Char.isDigit
        if expD = [] ∨ r4.drop expD.length ≠ [] then none
        else
          let p : ℚ := (10 : ℚ) ^ digitsVal expD
          let v := mag * (if eNeg then p⁻¹ else p)
          some (if signNeg then -v else v)
      else none

/-! ## The validator (lines 139-157) -/

/-- One validated output record (`{'item': str, 'price': float,
'category': str}`). -/
structure LineItem where
  item : String
  price : ℚ
  category : String
deriving DecidableEq, Repr

/-- Python `dict.get`: the value of the last binding of a key in an
association list (later duplicate keys overwrite earlier ones). -/
def lookupLast (k : String) : List (String × JValue) → Option JValue
  | [] => none
  | (k1, v) :: t =>
    match lookupLast k t with
    | some r => some r
    | none => if k1 = k then some v else none

/-- `dict.get` with a default. -/
def getOrElse (fs : List (String × JValue)) (k : String) (dflt : JValue) : JValue :=
  match lookupLast k fs with
  | some v => v
  | none => dflt

/-- The membership test of line 141: the element is a dict containing the
keys `item`, `price` and `category`. -/
def conforms : JValue → Bool
  | .obj fs =>
    (lookupLast "item" fs).isSome && (lookupLast "price" fs).isSome &&
      (lookupLast "category" fs).isSome
  | _ => false

/-- The fields of a mapping-shaped element. -/
def extractFields : JValue → List (String × JValue)
  | .obj fs => fs
  | _ => []

/-- Currency-symbol removal of line 146:
`.replace('$', '').replace('€', '').replace('£', '')`. -/
def stripCurrency (s : String) : String :=
  pyReplace "£" "" (pyReplace "€" "" (pyReplace "$" "" s))

/-- The price coercion of lines 143-151: missing or null price gives
`0.0`; otherwise currency symbols are stripped from `str(price)`, the
result is whitespace-stripped and fed to `float`, any parse failure
giving `0.0`. -/
def coercePrice (fs : List (String × JValue)) : ℚ :=
  match lookupLast "price" fs with
  | none => 0
  | some .null => 0
  | some v =>
    match pyFloat (pyStrip (stripCurrency (pyStr v))) with
    | some q => q
    | none => 0

/-- The record constructed at lines 153-157 for a conforming element. -/
def mkItem (fs : List (String × JValue)) : LineItem :=
  { item := pyStr (getOrElse fs "item" (.str "Unknown"))
    price := coercePrice fs
    category := pyStr (getOrElse fs "category" (.str "Uncategorized")) }

/-- The validation loop of lines 139-157: conforming elements are coerced
and appended in order, all other elements are dropped. -/
def validateItems : List JValue → List LineItem
  | [] => []
  | e :: t =>
    if conforms e then mkItem (extractFields e) :: validateItems t
    else validateItems t

/-- Python iteration over the parsed JSON document (`for item_data in
categorized_items`): a list yields its elements, a dict its keys, a
string its characters; iterating anything else raises `TypeError`
(`none`), which the pipeline's `except` turns into a failure. -/
def iterElems : JValue → Option (List JValue)
  | .arr l => some l
  | .obj fs => some (fs.map (fun kv => .str kv.1))
  | .str s => some (s.data.map (fun c => .str (String.mk [c])))
  | _ => none

/-! ## OCR profile selection (lines 71-79) -/

/-- One step of the selection: keep the new text only if strictly longer
(line 76). -/
def ocrStep (best t : String) : String :=
  if best.length < t.length then t else best

/-- The OCR profile loop (lines 73-79) over the per-profile outputs:
returns the kept text together with the number of profiles actually run;
the loop breaks as soon as the kept text is longer than 50 characters. -/
def ocrLoop (best : String) : List String → String × Nat
  | [] => (best, 0)
  | t :: ts =>
    let best1 := ocrStep best t
    if 50 < best1.length then (best1, 1)
    else
      let r := ocrLoop best1 ts
      (r.1, r.2 + 1)

/-- The break-free selection fold (for stating when the loop stops). -/
def ocrFold (b : String) (ts : List String) : String := ts.foldl ocrStep b

/-! ## The pipeline orchestrator `process_receipt` (lines 55-169) -/

/-- The results of the pipeline's external calls: whether
`os.path.exists` succeeds, whether `cv2.imread`/preprocessing succeeds,
the stripped OCR text of each configuration profile in trial order, and
the model response (`none` when the remote call raises). -/
structure Env where
  fileExists : Bool
  imageReadable : Bool
  ocrTexts : List String
  llmResponse : Option String

/-- The pipeline stages, in execution order. -/
inductive Stage where
  | fileCheck | decode | ocr | model | locate | repair | parseStep | validate
deriving DecidableEq, Repr

/-- `process_receipt`: the Python return value (`none` on every failure
path) paired with the list of stages entered, in order. Failure at any
stage returns immediately, so the trace ends at the failing stage. -/
def process_receipt (env : Env) : Option (List LineItem) × List Stage :=
  match env.fileExists with
  | false => (none, [.fileCheck])
  | true =>
    match env.imageReadable with
    | false => (none, [.fileCheck, .decode])
    | true =>
      let best := (ocrLoop "" env.ocrTexts).1
      if best = "" then (none, [.fileCheck, .decode, .ocr])
      else
        match env.llmResponse with
        | none => (none, [.fileCheck, .decode, .ocr, .model])
        | some resp =>
          match locateJson resp.data with
          | none => (none, [.fileCheck, .decode, .ocr, .model, .locate])
          | some cand =>
            let repaired := convert_to_valid_json (String.mk cand)
            if repaired = "" then
              (none, [.fileCheck, .decode, .ocr, .model, .locate, .repair])
            else
              match json_loads repaired with
              | none =>
                (none, [.fileCheck, .decode, .ocr, .model, .locate, .repair, .parseStep])
              | some v =>
                match iterElems v with
                | none =>
                  (none, [.fileCheck, .decode, .ocr, .model, .locate, .repair, .parseStep, .validate])
                | some elems =>
                  let items := validateItems elems
                  if items = [] then
                    (none, [.fileCheck, .decode, .ocr, .model, .locate, .repair, .parseStep, .validate])
                  else
                    (some items, [.fileCheck, .decode, .ocr, .model, .locate, .repair, .parseStep, .validate])

/-! ## Lemmas about the OCR selection loop -/

theorem ocrStep_le_left (b t : String) : b.length ≤ (ocrStep b t).length := by
  unfold ocrStep
  split <;> omega

theorem ocrStep_le_right (b t : String) : t.length ≤ (ocrStep b t).length := by
  unfold ocrStep
  split <;> omega

theorem ocrStep_cases (b t : String) :
    (b.length < t.length ∧ ocrStep b t = t) ∨ (t.length ≤ b.length ∧ ocrStep b t = b) := by
  unfold ocrStep
  split
  · exact Or.inl ⟨by omega, rfl⟩
  · exact Or.inr ⟨by omega, rfl⟩

/-- Soundness of the selection loop: the kept text is at least as long as
the initial candidate and as every tried profile's output, and it is
either the initial candidate or the earliest tried output of its length
(everything tried before it is strictly shorter). -/
theorem ocrLoop_spec (ts : List String) : ∀ b : String,
    (ocrLoop b ts).2 ≤ ts.length ∧
    b.length ≤ (ocrLoop b ts).1.length ∧
    (∀ u ∈ ts.take (ocrLoop b ts).2, u.length ≤ (ocrLoop b ts).1.length) ∧
    ((ocrLoop b ts).1 = b ∨
      ∃ pre post, ts = pre ++ (ocrLoop b ts).1 :: post ∧ pre.length < (ocrLoop b ts).2 ∧
        b.length < (ocrLoop b ts).1.length ∧
        ∀ u ∈ pre, u.length < (ocrLoop b ts).1.length) := by
  induction ts with
  | nil =>
    intro b
    refine ⟨by simp [ocrLoop], by simp [ocrLoop], by simp [ocrLoop], Or.inl (by simp [ocrLoop])⟩
  | cons t ts ih =>
    intro b
    by_cases hbr : 50 < (ocrStep b t).length
    · have hres : ocrLoop b (t :: ts) = (ocrStep b t, 1) := by
        simp only [ocrLoop, if_pos hbr]
      rw [hres]
      refine ⟨by simp, ocrStep_le_left b t, ?_, ?_⟩
      · intro u hu
        have hut : u = t := by simpa using hu
        rw [hut]
        exact ocrStep_le_right b t
      · rcases ocrStep_cases b t with ⟨hlt, heq⟩ | ⟨_, heq⟩
        · exact Or.inr ⟨[], ts, by rw [heq]; rfl, by simp, by simpa [heq] using hlt, by simp⟩
        · exact Or.inl heq
    · have hres : ocrLoop b (t :: ts) =
          ((ocrLoop (ocrStep b t) ts).1, (ocrLoop (ocrStep b t) ts).2 + 1) := by
        simp only [ocrLoop, if_neg hbr]
      obtain ⟨ih1, ih2, ih3, ih4⟩ := ih (ocrStep b t)
      rw [hres]
      refine ⟨by simpa using ih1, le_trans (ocrStep_le_left b t) ih2, ?_, ?_⟩
      · intro u hu
        simp only [List.take_succ_cons, List.mem_cons] at hu
        rcases hu with hu | hu
        · rw [hu]
          exact le_trans (ocrStep_le_right b t) ih2
        · exact ih3 u hu
      · rcases ih4 with heq | ⟨pre, post, hsplit, hlen, hgt, hall⟩
        · rcases ocrStep_cases b t with ⟨hlt, hst⟩ | ⟨_, hst⟩
          · refine Or.inr ⟨[], ts, by rw [heq, hst]; rfl, by simp, ?_, by simp⟩
            rw [heq, hst]
            exact hlt
          · exact Or.inl (by rw [heq, hst])
        · refine Or.inr ⟨t :: pre, post, by rw [List.cons_append, ← hsplit],
            by simpa using hlen, lt_of_le_of_lt (ocrStep_le_left b t) hgt, ?_⟩
          intro u hu
          rcases List.mem_cons.mp hu with hu | hu
          · rw [hu]
            exact lt_of_le_of_lt (ocrStep_le_right b t) hgt
          · exact hall u hu

/-- The loop stops exactly when the kept text first exceeds 50
characters: the result equals the break-free fold over the tried prefix,
every strictly shorter tried prefix keeps the fold at 50 characters or
fewer, and if the loop stopped before exhausting the profiles then the
fold over the tried prefix exceeds 50 characters. -/
theorem ocrLoop_stop (ts : List String) : ∀ b : String, b.length ≤ 50 →
    (ocrLoop b ts).1 = ocrFold b (ts.take (ocrLoop b ts).2) ∧
    (∀ k, k + 1 < (ocrLoop b ts).2 → (ocrFold b (ts.take (k + 1))).length ≤ 50) ∧
    ((ocrLoop b ts).2 < ts.length → 50 < (ocrFold b (ts.take (ocrLoop b ts).2)).length) := by
  induction ts with
  | nil =>
    intro b _
    refine ⟨by simp [ocrLoop, ocrFold], by simp [ocrLoop], by simp [ocrLoop]⟩
  | cons t ts ih =>
    intro b hb
    by_cases hbr : 50 < (ocrStep b t).length
    · have hres : ocrLoop b (t :: ts) = (ocrStep b t, 1) := by
        simp only [ocrLoop, if_pos hbr]
      rw [hres]
      refine ⟨by simp [ocrFold], by omega, fun _ => by simpa [ocrFold] using hbr⟩
    · have hres : ocrLoop b (t :: ts) =
          ((ocrLoop (ocrStep b t) ts).1, (ocrLoop (ocrStep b t) ts).2 + 1) := by
        simp only [ocrLoop, if_neg hbr]
      obtain ⟨ih1, ih2, ih3⟩ := ih (ocrStep b t) (by omega)
      rw [hres]
      refine ⟨by simpa [ocrFold] using ih1, ?_, by simpa [ocrFold] using ih3⟩
      intro k hk
      match k with
      | 0 =>
        have h50 : (ocrStep b t).length ≤ 50 := by omega
        simpa [ocrFold] using h50
      | k + 1 =>
        have := ih2 k (by omega)
        simpa [ocrFold] using this

/-- C4: the Text Extractor keeps a profile's text only if strictly longer
than the best so far, so the returned text is at least as long as every
tried profile's output, and on equal lengths the earliest tried profile's
result is kept: the returned text is either the empty initial value or a
tried output strictly longer than everything tried before it. -/
theorem ocr_selection_keeps_longest_earliest (ts : List String) :
    (∀ u ∈ ts.take (ocrLoop "" ts).2, u.length ≤ (ocrLoop "" ts).1.length) ∧
    ((ocrLoop "" ts).1 = "" ∨
      ∃ pre post, ts = pre ++ (ocrLoop "" ts).1 :: post ∧ pre.length < (ocrLoop "" ts).2 ∧
        ∀ u ∈ pre, u.length < (ocrLoop "" ts).1.length) := by
  obtain ⟨_, _, h3, h4⟩ := ocrLoop_spec ts ""
  refine ⟨h3, ?_⟩
  rcases h4 with h | ⟨pre, post, hsplit, hlen, _, hall⟩
  · exact Or.inl h
  · exact Or.inr ⟨pre, post, hsplit, hlen, hall⟩

/-- C4 witness: on the concrete profile outputs `["ab", "xy", "abc"]` the
loop keeps `"abc"`, every tried output is no longer than it, and the
decomposition of the tie-break clause holds. -/
theorem ocr_selection_keeps_longest_earliest_witness :
    "xy".length ≤ (ocrLoop "" ["ab", "xy", "abc"]).1.length := by
  have h := (ocr_selection_keeps_longest_earliest ["ab", "xy", "abc"]).1
  exact h "xy" (by decide)

/-- C5 counterexample: with a first profile output of exactly 50
characters and a second of 60, the kept result reaches length 50 at the
first profile, yet the loop does not exit there: it runs the second
profile (two profiles tried) and even replaces the result, because the
source breaks only on length strictly greater than 50 (line 78). -/
theorem ocr_threshold_counterexample :
    50 ≤ (String.mk (List.replicate 50 'a')).length ∧
    (ocrLoop "" [String.mk (List.replicate 50 'a'), String.mk (List.replicate 60 'b')]).2 = 2 ∧
    (ocrLoop "" [String.mk (List.replicate 50 'a'), String.mk (List.replicate 60 'b')]).1 =
      String.mk (List.replicate 60 'b') := by
  refine ⟨by decide, by decide, by decide⟩

/-- C5 amended: the loop exits at the first profile after which the kept
result's length is at least 51 (strictly greater than 50), and no later
profile is run: the number of tried profiles is bounded by the profile
list, the result is the break-free fold of the tried prefix, every proper
tried prefix keeps the fold at most 50 characters, and when profiles
remain untried the tried fold exceeds 50 characters. -/
theorem ocr_threshold_amended (ts : List String) :
    (ocrLoop "" ts).2 ≤ ts.length ∧
    (ocrLoop "" ts).1 = ocrFold "" (ts.take (ocrLoop "" ts).2) ∧
    (∀ k, k + 1 < (ocrLoop "" ts).2 → (ocrFold "" (ts.take (k + 1))).length ≤ 50) ∧
    ((ocrLoop "" ts).2 < ts.length → 50 < (ocrFold "" (ts.take (ocrLoop "" ts).2)).length) := by
  obtain ⟨h1, _, _, _⟩ := ocrLoop_spec ts ""
  obtain ⟨h2, h3, h4⟩ := ocrLoop_stop ts "" (by simp)
  exact ⟨h1, h2, h3, h4⟩

/-- C5 amended witness: on `[51 chars, "zz"]` the loop stops after the
first profile; instantiating the amended theorem there discharges its
hypotheses at `k = 0` vacuously and yields the fold characterisation. -/
theorem ocr_threshold_amended_witness :
    (ocrLoop "" [String.mk (List.replicate 51 'a'), "zz"]).2 < 2 ∧
    50 < (ocrFold ""
      ([String.mk (List.replicate 51 'a'), "zz"].take
        (ocrLoop "" [String.mk (List.replicate 51 'a'), "zz"]).2)).length := by
  have h := (ocr_threshold_amended [String.mk (List.replicate 51 'a'), "zz"]).2.2.2
  exact ⟨by decide, h (by decide)⟩

/-! ## Lemmas about the validator -/

/-- C9: the validator is exactly "filter the conforming elements, in
order, and coerce each": non-mapping elements and elements lacking one of
the three keys are dropped without any error, and the conforming elements
appear in the output in their original order. -/
theorem validator_drops_nonconforming_keeps_order (l : List JValue) :
    validateItems l = (l.filter (fun e => conforms e)).map (fun e => mkItem (extractFields e)) := by
  induction l with
  | nil => rfl
  | cons e t ih =>
    by_cases h : conforms e
    · simp [validateItems, List.filter_cons, h, ih]
    · simp [validateItems, List.filter_cons, h, ih]

/-- A null price is coerced to `0`. -/
theorem coercePrice_null (fs : List (String × JValue))
    (h : lookupLast "price" fs = some JValue.null) : coercePrice fs = 0 := by
  unfold coercePrice
  rw [h]

/-- A price whose stripped text fails to parse is coerced to `0`. -/
theorem coercePrice_parse_fail (fs : List (String × JValue)) (v : JValue)
    (h : lookupLast "price" fs = some v)
    (hp : pyFloat (pyStrip (stripCurrency (pyStr v))) = none) : coercePrice fs = 0 := by
  cases v <;> (unfold coercePrice; rw [h]) <;> simp [hp]

/-- A price whose stripped text parses is coerced to the parsed value. -/
theorem coercePrice_parse_ok (fs : List (String × JValue)) (v : JValue) (q : ℚ)
    (h : lookupLast "price" fs = some v) (hv : v ≠ JValue.null)
    (hp : pyFloat (pyStrip (stripCurrency (pyStr v))) = some q) : coercePrice fs = q := by
  cases v <;> (unfold coercePrice; rw [h]) <;> first
    | exact absurd rfl hv
    | simp [hp]

/-- C1 counterexample: an element missing the `item` key does not yield a
LineItem with item `"Unknown"`; line 141 requires all three keys, so the
element is dropped and the validator output is empty. -/
theorem validator_missing_item_dropped :
    lookupLast "item" [("price", JValue.intg 1), ("category", JValue.str "y")] = none ∧
    validateItems [JValue.obj [("price", JValue.intg 1), ("category", JValue.str "y")]] = [] := by
  exact ⟨rfl, rfl⟩

unseal Rat.add Rat.mul Rat.inv Rat.sub in
/-- C1 amended: for a conforming element (all three keys present), a null
price or a price whose stripped text fails to parse yields price `0.0`,
and the string price `"$12.50"` yields `12.50`; an element missing the
`item` key, however, yields no LineItem at all — it is dropped, the
`"Unknown"` default of line 154 being unreachable. -/
theorem validator_price_defaulting (fs : List (String × JValue)) :
    (conforms (JValue.obj fs) = true →
      validateItems [JValue.obj fs] = [mkItem fs] ∧
      (lookupLast "price" fs = some JValue.null → (mkItem fs).price = 0) ∧
      (∀ v, lookupLast "price" fs = some v →
        pyFloat (pyStrip (stripCurrency (pyStr v))) = none → (mkItem fs).price = 0) ∧
      (lookupLast "price" fs = some (JValue.str "$12.50") → (mkItem fs).price = 25 / 2)) ∧
    (lookupLast "item" fs = none → validateItems [JValue.obj fs] = []) := by
  constructor
  · intro hconf
    refine ⟨by simp [validateItems, hconf, extractFields], ?_, ?_, ?_⟩
    · intro h
      simpa [mkItem] using coercePrice_null fs h
    · intro v hv hparse
      simpa [mkItem] using coercePrice_parse_fail fs v hv hparse
    · intro h
      have hq : pyFloat (pyStrip (stripCurrency (pyStr (JValue.str "$12.50")))) = some (25 / 2) := by
        decide
      simpa [mkItem] using coercePrice_parse_ok fs _ _ h (by intro hx; cases hx) hq
  · intro h
    have hnc : conforms (JValue.obj fs) = false := by
      simp [conforms, h]
    simp [validateItems, hnc]

unseal Rat.add Rat.mul Rat.inv Rat.sub in
/-- C1 witness: a conforming element with a null price gets price `0`, a
conforming element with price `"$12.50"` gets `12.50`, and a concrete
element without `item` is dropped. -/
theorem validator_price_defaulting_witness :
    (mkItem [("item", JValue.str "a"), ("price", JValue.null), ("category", JValue.str "b")]).price = 0 ∧
    (mkItem [("item", JValue.str "a"), ("price", JValue.str "$12.50"), ("category", JValue.str "b")]).price = 25 / 2 ∧
    validateItems [JValue.obj [("category", JValue.str "y")]] = [] := by
  refine ⟨?_, ?_, ?_⟩
  · exact ((validator_price_defaulting
      [("item", JValue.str "a"), ("price", JValue.null), ("category", JValue.str "b")]).1
      (by rfl)).2.1 rfl
  · exact ((validator_price_defaulting
      [("item", JValue.str "a"), ("price", JValue.str "$12.50"), ("category", JValue.str "b")]).1
      (by rfl)).2.2.2 rfl
  · exact (validator_price_defaulting [("category", JValue.str "y")]).2 rfl

unseal Rat.add Rat.mul Rat.inv Rat.sub in
/-- C6 counterexample: a conforming element whose price text is `"-5.0"`
yields a LineItem with the negative price `-5`; the validator performs no
sign check, so `price` is not non-negative. -/
theorem validator_negative_price :
    validateItems
        [JValue.obj [("item", JValue.str "x"), ("price", JValue.str "-5.0"), ("category", JValue.str "y")]] =
      [{ item := "x", price := -5, category := "y" }] ∧
    ({ item := "x", price := -5, category := "y" } : LineItem).price < 0 := by
  exact ⟨by decide, by decide⟩

/-- C6 amended: every LineItem of a validator output is fully populated —
it arises from a conforming element by the source's coercions, its item
and category being `str(...)` strings with the documented defaults and
its price the `float` coercion (0.0 on null or parse failure) — but the
price is an arbitrary parsed number, which may be negative. -/
theorem validator_output_populated (l : List JValue) (li : LineItem)
    (h : li ∈ validateItems l) :
    ∃ e, e ∈ l ∧ conforms e = true ∧ li = mkItem (extractFields e) ∧
      li.item = pyStr (getOrElse (extractFields e) "item" (JValue.str "Unknown")) ∧
      li.price = coercePrice (extractFields e) ∧
      li.category = pyStr (getOrElse (extractFields e) "category" (JValue.str "Uncategorized")) := by
  induction l with
  | nil => simp [validateItems] at h
  | cons e t ih =>
    by_cases hc : conforms e
    · rw [validateItems, if_pos hc] at h
      rcases List.mem_cons.mp h with h1 | h1
      · exact ⟨e, List.mem_cons_self e t, hc, h1, by rw [h1]; rfl, by rw [h1]; rfl, by rw [h1]; rfl⟩
      · obtain ⟨f, hf, hcf, hli, hrest⟩ := ih h1
        exact ⟨f, List.mem_cons_of_mem e hf, hcf, hli, hrest⟩
    · rw [validateItems, if_neg hc] at h
      obtain ⟨f, hf, hcf, hli, hrest⟩ := ih h
      exact ⟨f, List.mem_cons_of_mem e hf, hcf, hli, hrest⟩

unseal Rat.add Rat.mul Rat.inv Rat.sub in
/-- C6 witness: instantiating the population theorem at a concrete
one-element parsed array (with a negative-text price, exhibiting that the
populated price need not be non-negative). -/
theorem validator_output_populated_witness :
    ∃ e, e ∈ [JValue.obj [("item", JValue.str "x"), ("price", JValue.str "-5.0"), ("category", JValue.str "y")]] ∧
      conforms e = true ∧
      ({ item := "x", price := -5, category := "y" } : LineItem) = mkItem (extractFields e) ∧
      ({ item := "x", price := -5, category := "y" } : LineItem).item =
        pyStr (getOrElse (extractFields e) "item" (JValue.str "Unknown")) ∧
      ({ item := "x", price := -5, category := "y" } : LineItem).price = coercePrice (extractFields e) ∧
      ({ item := "x", price := -5, category := "y" } : LineItem).category =
        pyStr (getOrElse (extractFields e) "category" (JValue.str "Uncategorized")) := by
  exact validator_output_populated _ _ (by decide)

/-! ## Short-circuit lemmas for the orchestrator -/

theorem process_receipt_file_fail (env : Env) (h : env.fileExists = false) :
    process_receipt env = (none, [Stage.fileCheck]) := by
  obtain ⟨fe, ir, ts, resp⟩ := env
  cases fe
  · rfl
  · exact Bool.noConfusion h

theorem process_receipt_decode_fail (env : Env) (h1 : env.fileExists = true)
    (h2 : env.imageReadable = false) :
    process_receipt env = (none, [Stage.fileCheck, Stage.decode]) := by
  obtain ⟨fe, ir, ts, resp⟩ := env
  cases fe
  · exact Bool.noConfusion h1
  · cases ir
    · rfl
    · exact Bool.noConfusion h2

theorem process_receipt_ocr_fail (env : Env) (h1 : env.fileExists = true)
    (h2 : env.imageReadable = true) (h3 : (ocrLoop "" env.ocrTexts).1 = "") :
    process_receipt env = (none, [Stage.fileCheck, Stage.decode, Stage.ocr]) := by
  obtain ⟨fe, ir, ts, resp⟩ := env
  cases fe
  · exact Bool.noConfusion h1
  · cases ir
    · exact Bool.noConfusion h2
    · simp only at h3
      simp [process_receipt, h3]

theorem process_receipt_model_fail (env : Env) (h1 : env.fileExists = true)
    (h2 : env.imageReadable = true) (h3 : (ocrLoop "" env.ocrTexts).1 ≠ "")
    (h4 : env.llmResponse = none) :
    process_receipt env = (none, [Stage.fileCheck, Stage.decode, Stage.ocr, Stage.model]) := by
  obtain ⟨fe, ir, ts, resp⟩ := env
  cases fe
  · exact Bool.noConfusion h1
  · cases ir
    · exact Bool.noConfusion h2
    · simp only at h3 h4
      simp [process_receipt, h3, h4]

theorem process_receipt_locate_fail (env : Env) (resp : String) (h1 : env.fileExists = true)
    (h2 : env.imageReadable = true) (h3 : (ocrLoop "" env.ocrTexts).1 ≠ "")
    (h4 : env.llmResponse = some resp) (h5 : locateJson resp.data = none) :
    process_receipt env =
      (none, [Stage.fileCheck, Stage.decode, Stage.ocr, Stage.model, Stage.locate]) := by
  obtain ⟨fe, ir, ts, r⟩ := env
  cases fe
  · exact Bool.noConfusion h1
  · cases ir
    · exact Bool.noConfusion h2
    · simp only at h3 h4
      simp [process_receipt, h3, h4, h5]

theorem process_receipt_repair_empty (env : Env) (resp : String) (cand : List Char)
    (h1 : env.fileExists = true) (h2 : env.imageReadable = true)
    (h3 : (ocrLoop "" env.ocrTexts).1 ≠ "") (h4 : env.llmResponse = some resp)
    (h5 : locateJson resp.data = some cand)
    (h6 : convert_to_valid_json (String.mk cand) = "") :
    process_receipt env =
      (none, [Stage.fileCheck, Stage.decode, Stage.ocr, Stage.model, Stage.locate,
        Stage.repair]) := by
  obtain ⟨fe, ir, ts, r⟩ := env
  cases fe
  · exact Bool.noConfusion h1
  · cases ir
    · exact Bool.noConfusion h2
    · simp only at h3 h4
      simp [process_receipt, h3, h4, h5, h6]

theorem process_receipt_parse_fail (env : Env) (resp : String) (cand : List Char)
    (h1 : env.fileExists = true) (h2 : env.imageReadable = true)
    (h3 : (ocrLoop "" env.ocrTexts).1 ≠ "") (h4 : env.llmResponse = some resp)
    (h5 : locateJson resp.data = some cand)
    (h6 : convert_to_valid_json (String.mk cand) ≠ "")
    (h7 : json_loads (convert_to_valid_json (String.mk cand)) = none) :
    process_receipt env =
      (none, [Stage.fileCheck, Stage.decode, Stage.ocr, Stage.model, Stage.locate,
        Stage.repair, Stage.parseStep]) := by
  obtain ⟨fe, ir, ts, r⟩ := env
  cases fe
  · exact Bool.noConfusion h1
  · cases ir
    · exact Bool.noConfusion h2
    · simp only at h3 h4
      simp [process_receipt, h3, h4, h5, h6, h7]

theorem process_receipt_validate_fail (env : Env) (resp : String) (cand : List Char)
    (v : JValue) (h1 : env.fileExists = true) (h2 : env.imageReadable = true)
    (h3 : (ocrLoop "" env.ocrTexts).1 ≠ "") (h4 : env.llmResponse = some resp)
    (h5 : locateJson resp.data = some cand)
    (h6 : convert_to_valid_json (String.mk cand) ≠ "")
    (h7 : json_loads (convert_to_valid_json (String.mk cand)) = some v)
    (h8 : iterElems v = none ∨ ∃ elems, iterElems v = some elems ∧ validateItems elems = []) :
    process_receipt env =
      (none, [Stage.fileCheck, Stage.decode, Stage.ocr, Stage.model, Stage.locate,
        Stage.repair, Stage.parseStep, Stage.validate]) := by
  obtain ⟨fe, ir, ts, r⟩ := env
  cases fe
  · exact Bool.noConfusion h1
  · cases ir
    · exact Bool.noConfusion h2
    · simp only at h3 h4
      rcases h8 with h8 | ⟨elems, h8, h9⟩
      · simp [process_receipt, h3, h4, h5, h6, h7, h8]
      · simp [process_receipt, h3, h4, h5, h6, h7, h8, h9]

/-- C2 counterexample: two pipelines failing at different stages — a
missing input file (`ImageReadError` in the spec's taxonomy) and a run
where every OCR profile yields empty text (`OCRExtractionError`) — return
the same value `None`; the stage traces differ, but the returned value is
identical, so a caller cannot distinguish the failure kind from the
returned value alone. -/
theorem process_receipt_failures_indistinguishable :
    (process_receipt ⟨false, true, [], none⟩).1 = none ∧
    (process_receipt ⟨true, true, ["", ""], none⟩).1 = none ∧
    (process_receipt ⟨false, true, [], none⟩).2 ≠ (process_receipt ⟨true, true, ["", ""], none⟩).2 := by
  exact ⟨rfl, rfl, by decide⟩

/-- C2 amended: on any stage failure `process_receipt` short-circuits —
no later stage is entered, as the stage trace shows — and returns the
single undifferentiated failure value `None`, whatever the failing stage;
the failure kinds of the specification's taxonomy are not distinguishable
from the returned value, only the short-circuit behaviour itself holds. -/
theorem process_receipt_short_circuits (env : Env) :
    (env.fileExists = false → process_receipt env = (none, [Stage.fileCheck])) ∧
    (env.fileExists = true → env.imageReadable = false →
      process_receipt env = (none, [Stage.fileCheck, Stage.decode])) ∧
    (env.fileExists = true → env.imageReadable = true → (ocrLoop "" env.ocrTexts).1 = "" →
      process_receipt env = (none, [Stage.fileCheck, Stage.decode, Stage.ocr])) ∧
    (env.fileExists = true → env.imageReadable = true → (ocrLoop "" env.ocrTexts).1 ≠ "" →
      env.llmResponse = none →
      process_receipt env = (none, [Stage.fileCheck, Stage.decode, Stage.ocr, Stage.model])) ∧
    (∀ resp, env.fileExists = true → env.imageReadable = true →
      (ocrLoop "" env.ocrTexts).1 ≠ "" → env.llmResponse = some resp →
      locateJson resp.data = none →
      process_receipt env =
        (none, [Stage.fileCheck, Stage.decode, Stage.ocr, Stage.model, Stage.locate])) ∧
    (∀ resp cand, env.fileExists = true → env.imageReadable = true →
      (ocrLoop "" env.ocrTexts).1 ≠ "" → env.llmResponse = some resp →
      locateJson resp.data = some cand → convert_to_valid_json (String.mk cand) ≠ "" →
      json_loads (convert_to_valid_json (String.mk cand)) = none →
      process_receipt env =
        (none, [Stage.fileCheck, Stage.decode, Stage.ocr, Stage.model, Stage.locate,
          Stage.repair, Stage.parseStep])) ∧
    (∀ resp cand v, env.fileExists = true → env.imageReadable = true →
      (ocrLoop "" env.ocrTexts).1 ≠ "" → env.llmResponse = some resp →
      locateJson resp.data = some cand → convert_to_valid_json (String.mk cand) ≠ "" →
      json_loads (convert_to_valid_json (String.mk cand)) = some v →
      (iterElems v = none ∨ ∃ elems, iterElems v = some elems ∧ validateItems elems = []) →
      process_receipt env =
        (none, [Stage.fileCheck, Stage.decode, Stage.ocr, Stage.model, Stage.locate,
          Stage.repair, Stage.parseStep, Stage.validate])) := by
  refine ⟨process_receipt_file_fail env, process_receipt_decode_fail env,
    process_receipt_ocr_fail env, process_receipt_model_fail env,
    fun resp => process_receipt_locate_fail env resp,
    fun resp cand => process_receipt_parse_fail env resp cand,
    fun resp cand v => process_receipt_validate_fail env resp cand v⟩

/-- C2 witness: the short-circuit theorem instantiated at a missing-file
environment: the pipeline stops at the file check with value `None`. -/
theorem process_receipt_short_circuits_witness :
    process_receipt ⟨false, false, ["x"], some "y"⟩ = (none, [Stage.fileCheck]) := by
  exact (process_receipt_short_circuits ⟨false, false, ["x"], some "y"⟩).1 rfl

/-! ## Lemmas about the span searches -/

theorem lastIdx_append_last (c : Char) (l : List Char) :
    lastIdx c (l ++ [c]) = some l.length := by
  induction l with
  | nil => simp [lastIdx]
  | cons a t ih => simp [lastIdx, ih]

theorem firstIdx_le_of_getElem (c : Char) (s : List Char) (i : Nat)
    (h : s[i]? = some c) : ∃ a, firstIdx c s = some a ∧ a ≤ i := by
  induction s generalizing i with
  | nil => simp at h
  | cons d t ih =>
    match i with
    | 0 =>
      simp only [List.getElem?_cons_zero, Option.some.injEq] at h
      exact ⟨0, by simp [firstIdx, h], Nat.zero_le 0⟩
    | i + 1 =>
      simp only [List.getElem?_cons_succ] at h
      by_cases hd : d = c
      · exact ⟨0, by simp [firstIdx, hd], Nat.zero_le _⟩
      · obtain ⟨a, ha, hle⟩ := ih i h
        exact ⟨a + 1, by simp [firstIdx, hd, ha], by omega⟩

theorem lastIdx_ge_of_getElem (c : Char) (s : List Char) (j : Nat)
    (h : s[j]? = some c) : ∃ b, lastIdx c s = some b ∧ j ≤ b := by
  induction s generalizing j with
  | nil => simp at h
  | cons d t ih =>
    match j with
    | 0 =>
      simp only [List.getElem?_cons_zero, Option.some.injEq] at h
      match hlt : lastIdx c t with
      | some k => exact ⟨k + 1, by simp [lastIdx, hlt], by omega⟩
      | none => exact ⟨0, by simp [lastIdx, hlt, h], Nat.le_refl 0⟩
    | j + 1 =>
      simp only [List.getElem?_cons_succ] at h
      obtain ⟨b, hb, hge⟩ := ih j h
      exact ⟨b + 1, by simp [lastIdx, hb], by omega⟩

theorem firstIdx_some_lastIdx (c : Char) (s : List Char) (k : Nat)
    (h : firstIdx c s = some k) : ∃ m, lastIdx c s = some m := by
  induction s generalizing k with
  | nil => simp [firstIdx] at h
  | cons d t ih =>
    by_cases hd : d = c
    · match hlt : lastIdx c t with
      | some m => exact ⟨m + 1, by simp [lastIdx, hlt]⟩
      | none => exact ⟨0, by simp [lastIdx, hlt, hd]⟩
    · rw [firstIdx, if_neg hd] at h
      match hf : firstIdx c t with
      | some k1 =>
        obtain ⟨m, hm⟩ := ih k1 hf
        exact ⟨m + 1, by simp [lastIdx, hm]⟩
      | none =>
        rw [hf] at h
        exact Option.noConfusion h

/-- Analysis of `lastIdx` on a cons cell when the index is positive. -/
theorem lastIdx_cons_pos (c cl : Char) (rest : List Char) (j1 : Nat)
    (h : lastIdx cl (c :: rest) = some j1) (hpos : 0 < j1) :
    lastIdx cl rest = some (j1 - 1) := by
  rw [lastIdx] at h
  match hlt : lastIdx cl rest with
  | some k =>
    rw [hlt] at h
    simp only [Option.some.injEq] at h ⊢
    omega
  | none =>
    rw [hlt] at h
    by_cases hcc : c = cl
    · rw [if_pos hcc] at h
      simp only [Option.some.injEq] at h
      omega
    · rw [if_neg hcc] at h
      exact Option.noConfusion h

/-- Analysis of `firstIdx` on a cons cell whose head does not match. -/
theorem firstIdx_cons_ne (c op : Char) (rest : List Char) (i0 : Nat)
    (hc : ¬ c = op) (h : firstIdx op (c :: rest) = some i0) :
    firstIdx op rest = some (i0 - 1) ∧ 1 ≤ i0 := by
  rw [firstIdx, if_neg hc] at h
  match hf : firstIdx op rest with
  | some a =>
    rw [hf] at h
    simp only [Option.map_some', Option.some.injEq] at h
    exact ⟨by simp only [Option.some.injEq]; omega, by omega⟩
  | none =>
    rw [hf] at h
    exact Option.noConfusion h

/-- The greedy span search equals "substring from the first opening
character to the last closing character" whenever the first opener
precedes the last closer. -/
theorem reSearchSpan_eq (op cl : Char) (s : List Char) : ∀ i0 j1 : Nat,
    firstIdx op s = some i0 → lastIdx cl s = some j1 → i0 < j1 →
    reSearchSpan op cl s = some ((s.drop i0).take (j1 - i0 + 1)) := by
  induction s with
  | nil => intro i0 j1 h1 _ _; simp [firstIdx] at h1
  | cons c rest ih =>
    intro i0 j1 h1 h2 hij
    by_cases hc : c = op
    · have hi0 : i0 = 0 := by
        rw [firstIdx, if_pos hc] at h1
        simp only [Option.some.injEq] at h1
        omega
      subst hi0
      have hrest : lastIdx cl rest = some (j1 - 1) :=
        lastIdx_cons_pos c cl rest j1 h2 (by omega)
      rw [reSearchSpan, if_pos hc, hrest]
      simp only [List.drop_zero, List.take_succ_cons]
      have he : j1 - 1 + 1 = j1 - 0 := by omega
      rw [he]
    · obtain ⟨h1t, hi1⟩ := firstIdx_cons_ne c op rest i0 hc h1
      have h2t : lastIdx cl rest = some (j1 - 1) :=
        lastIdx_cons_pos c cl rest j1 h2 (by omega)
      rw [reSearchSpan, if_neg hc]
      have hij2 : i0 - 1 < j1 - 1 := by omega
      rw [ih (i0 - 1) (j1 - 1) h1t h2t hij2]
      have hd : (c :: rest).drop i0 = rest.drop (i0 - 1) := by
        match i0, hi1 with
        | i + 1, _ => simp
      rw [hd]
      have he : j1 - 1 - (i0 - 1) = j1 - i0 := by omega
      rw [he]

/-- If the greedy object search finds nothing, the non-greedy object scan
finds nothing either (any non-greedy match would be a greedy match). -/
theorem finditer_nil_of_search_none (op cl : Char) : ∀ fuel s,
    reSearchSpan op cl s = none → finditerSpanF op cl fuel s = [] := by
  intro fuel
  induction fuel with
  | zero => intro s _; cases s <;> rfl
  | succ f ih =>
    intro s h
    match s with
    | [] => rfl
    | c :: rest =>
      rw [reSearchSpan] at h
      by_cases hc : c = op
      · rw [if_pos hc] at h
        match hlt : lastIdx cl rest with
        | some k => rw [hlt] at h; exact Option.noConfusion h
        | none =>
          rw [hlt] at h
          rw [finditerSpanF, if_pos hc]
          match hft : firstIdx cl rest with
          | some k =>
            obtain ⟨m, hm⟩ := firstIdx_some_lastIdx cl rest k hft
            rw [hm] at hlt
            exact Option.noConfusion hlt
          | none => exact ih rest h
      · rw [if_neg hc] at h
        rw [finditerSpanF, if_neg hc]
        exact ih rest h

/-- Wrapping any text in brackets makes the whole wrapped text the greedy
array match (the re-search of line 117 on the rewritten response). -/
theorem reSearchSpan_wrap (o : List Char) :
    reSearchSpan '[' ']' ('[' :: (o ++ [']'])) = some ('[' :: (o ++ [']'])) := by
  rw [reSearchSpan, if_pos rfl, lastIdx_append_last]
  show some ('[' :: List.take (o.length + 1) (o ++ [']'])) = _
  rw [List.take_of_length_le (by simp)]

/-- C3: the candidate JSON is located by exactly three strategies in
order: a greedy array span over the whole response; failing that, a
greedy object span wrapped into a one-element array; failing that, the
comma-joined non-greedy object spans — but when the greedy object search
fails there are no non-greedy object spans at all, so the synthesized
array is never built and the stage fails (`None`, the
`NoStructuredDataError` of the spec), the parse stage never being
entered. -/
theorem locateJson_three_strategies (resp : List Char) :
    (∀ m, reSearchSpan '[' ']' resp = some m → locateJson resp = some m) ∧
    (reSearchSpan '[' ']' resp = none →
      ∀ o, reSearchSpan lbrace rbrace resp = some o →
        locateJson resp = some ('[' :: (o ++ [']']))) ∧
    (reSearchSpan '[' ']' resp = none → reSearchSpan lbrace rbrace resp = none →
      finditerSpanF lbrace rbrace resp.length resp = [] ∧ locateJson resp = none) ∧
    (∀ env : Env, ∀ r : String, env.fileExists = true → env.imageReadable = true →
      (ocrLoop "" env.ocrTexts).1 ≠ "" → env.llmResponse = some r →
      locateJson r.data = none →
      (process_receipt env).1 = none ∧ Stage.parseStep ∉ (process_receipt env).2) := by
  refine ⟨?_, ?_, ?_, ?_⟩
  · intro m h
    rw [locateJson, h]
  · intro h1 o h2
    simp only [locateJson, h1, h2, reSearchSpan_wrap]
  · intro h1 h2
    have hfd : finditerSpanF lbrace rbrace resp.length resp = [] :=
      finditer_nil_of_search_none lbrace rbrace resp.length resp h2
    refine ⟨hfd, ?_⟩
    simp only [locateJson, h1, h2, hfd]
  · intro env r he1 he2 he3 he4 he5
    rw [process_receipt_locate_fail env r he1 he2 he3 he4 he5]
    exact ⟨rfl, by decide⟩

/-- C3 witness: the three strategies on concrete responses — an embedded
array is taken greedily, a lone object is wrapped, and prose without any
object-shaped span fails. -/
theorem locateJson_three_strategies_witness :
    locateJson "x[1]y".data = some "[1]".data ∧
    locateJson ('p' :: lbrace :: 'a' :: rbrace :: ['q']) =
      some ('[' :: ((lbrace :: 'a' :: [rbrace]) ++ [']'])) ∧
    locateJson "plain prose".data = none := by
  refine ⟨(locateJson_three_strategies "x[1]y".data).1 "[1]".data rfl, ?_, ?_⟩
  · exact (locateJson_three_strategies ('p' :: lbrace :: 'a' :: rbrace :: ['q'])).2.1 rfl
      (lbrace :: 'a' :: [rbrace]) rfl
  · exact ((locateJson_three_strategies "plain prose".data).2.2.1 rfl rfl).2

/-- C10: whenever the response contains a `[` with some `]` after it, the
located candidate is exactly the substring from the first `[` of the
whole response to its last `]`, balanced or not — all prose between inner
and final closing brackets included. -/
theorem locateJson_first_to_last_bracket (resp : List Char) (i j : Nat) (hij : i < j)
    (hi : resp[i]? = some '[') (hj : resp[j]? = some ']') :
    ∃ a b, firstIdx '[' resp = some a ∧ lastIdx ']' resp = some b ∧ a ≤ i ∧ j ≤ b ∧
      locateJson resp = some ((resp.drop a).take (b - a + 1)) := by
  obtain ⟨a, ha, hai⟩ := firstIdx_le_of_getElem '[' resp i hi
  obtain ⟨b, hb, hjb⟩ := lastIdx_ge_of_getElem ']' resp j hj
  have hab : a < b := by omega
  have hsp := reSearchSpan_eq '[' ']' resp a b ha hb hab
  exact ⟨a, b, ha, hb, hai, hjb, by rw [locateJson, hsp]⟩

/-- C10 witness: in `"a[1] b ] c"` the candidate runs from the first `[`
to the last `]`, including the prose between the inner `]` and the final
`]`. -/
theorem locateJson_first_to_last_bracket_witness :
    ∃ a b, firstIdx '[' "a[1] b ] c".data = some a ∧ lastIdx ']' "a[1] b ] c".data = some b ∧
      a ≤ 1 ∧ 3 ≤ b ∧
      locateJson "a[1] b ] c".data =
        some (("a[1] b ] c".data.drop a).take (b - a + 1)) := by
  exact locateJson_first_to_last_bracket "a[1] b ] c".data 1 3 (by omega) rfl rfl

/-! ## Lemmas about the repair transforms -/

theorem containsSub_cons_false (p : List Char) (c : Char) (rest : List Char)
    (h : containsSub p (c :: rest) = false) :
    isPre p (c :: rest) = false ∧ containsSub p rest = false := by
  rw [containsSub] at h
  exact Bool.or_eq_false_iff.mp h

theorem isPre_append_self (p r : List Char) : isPre p (p ++ r) = true := by
  induction p with
  | nil => rfl
  | cons a p ih => simp [isPre, ih]

theorem containsSub_of_isPre (p s : List Char) (h : isPre p s = true) :
    containsSub p s = true := by
  cases s with
  | nil => rw [containsSub]; exact h
  | cons c rest => simp [containsSub, h]

theorem containsSub_cons_right (p : List Char) (c : Char) (rest : List Char)
    (h : containsSub p rest = true) : containsSub p (c :: rest) = true := by
  simp [containsSub, h]

theorem containsSub_append_left (p x s : List Char) (h : containsSub p s = true) :
    containsSub p (x ++ s) = true := by
  induction x with
  | nil => exact h
  | cons c x ih => exact containsSub_cons_right p c (x ++ s) ih

/-- The line-comment strip is the identity on texts with no `//`. -/
theorem stripLineCommentsF_id (s : List Char) (h : containsSub ['/', '/'] s = false) :
    ∀ f, stripLineCommentsF f s = s := by
  induction s with
  | nil => intro f; cases f <;> rfl
  | cons c rest ih =>
    obtain ⟨hp, hr⟩ := containsSub_cons_false _ _ _ h
    intro f
    cases f with
    | zero => rfl
    | succ f =>
      rw [stripLineCommentsF, if_neg ?hcond, ih hr f]
      case hcond =>
        rintro ⟨hc, hh⟩
        match rest, hh with
        | d :: t, hh =>
          simp only [List.head?_cons, Option.some.injEq] at hh
          rw [hc, hh] at hp
          simp [isPre] at hp

/-- The block-comment strip is the identity on texts with no `/*`. -/
theorem stripBlockCommentsF_id (s : List Char) (h : containsSub ['/', '*'] s = false) :
    ∀ f, stripBlockCommentsF f s = s := by
  induction s with
  | nil => intro f; cases f <;> rfl
  | cons c rest ih =>
    obtain ⟨hp, hr⟩ := containsSub_cons_false _ _ _ h
    intro f
    cases f with
    | zero => rfl
    | succ f =>
      rw [stripBlockCommentsF, if_neg ?hcond, ih hr f]
      case hcond =>
        rintro ⟨hc, hh⟩
        match rest, hh with
        | d :: t, hh =>
          simp only [List.head?_cons, Option.some.injEq] at hh
          rw [hc, hh] at hp
          simp [isPre] at hp

/-- The quote rewrite is the identity on texts with no single quote. -/
theorem rewriteSQF_id (s : List Char) (h : containsSub [squote] s = false) :
    ∀ prev f, rewriteSQF prev f s = s := by
  induction s with
  | nil => intro prev f; cases f <;> rfl
  | cons c rest ih =>
    obtain ⟨hp, hr⟩ := containsSub_cons_false _ _ _ h
    intro prev f
    cases f with
    | zero => rfl
    | succ f =>
      rw [rewriteSQF, if_neg ?hcond, ih hr c f]
      case hcond =>
        rintro ⟨hc, -⟩
        rw [hc] at hp
        simp [isPre] at hp

/-- `str.replace` is the identity on texts not containing the pattern. -/
theorem replaceF_id (old new : List Char) (s : List Char)
    (h : containsSub old s = false) : ∀ f, replaceF old new f s = s := by
  induction s with
  | nil => intro f; cases f <;> rfl
  | cons c rest ih =>
    obtain ⟨hp, hr⟩ := containsSub_cons_false _ _ _ h
    intro f
    cases f with
    | zero => rfl
    | succ f =>
      rw [replaceF, if_neg ?hcond, ih hr f]
      case hcond =>
        rintro ⟨-, hpre⟩
        rw [hp] at hpre
        exact Bool.noConfusion hpre

/-- Scan for the trailing-comma pattern: a comma whose next
non-whitespace character is the closing character. -/
def hasCommaClose (close : Char) : List Char → Bool
  | [] => false
  | c :: rest =>
    (c = ',' && ((rest.dropWhile isWsChar).head? = some close)) || hasCommaClose close rest

/-- The trailing-comma strip is the identity on texts without the
comma-whitespace-close pattern. -/
theorem stripTrailingCommaF_id (close : Char) (s : List Char)
    (h : hasCommaClose close s = false) : ∀ f, stripTrailingCommaF close f s = s := by
  induction s with
  | nil => intro f; cases f <;> rfl
  | cons c rest ih =>
    rw [hasCommaClose] at h
    obtain ⟨h1, h2⟩ := Bool.or_eq_false_iff.mp h
    intro f
    cases f with
    | zero => rfl
    | succ f =>
      rw [stripTrailingCommaF]
      by_cases hc : c = ','
      · rw [if_pos hc]
        match hd : rest.dropWhile isWsChar with
        | [] =>
          show c :: stripTrailingCommaF close f rest = c :: rest
          rw [ih h2 f]
        | b :: after =>
          have hb : ¬ b = close := by
            intro hbc
            rw [hd, hbc] at h1
            simp [hc] at h1
          show (if b = close then close :: stripTrailingCommaF close f after
                else c :: stripTrailingCommaF close f rest) = c :: rest
          rw [if_neg hb, ih h2 f]
      · rw [if_neg hc, ih h2 f]

/-- The repair chain's trigger patterns: text free of them is untouched
by every rule. -/
def noTriggers (s : List Char) : Bool :=
  !containsSub ['/', '/'] s && !containsSub ['/', '*'] s && !containsSub [squote] s &&
  !containsSub "None".data s && !containsSub pricePhrase s &&
  !hasCommaClose rbrace s && !hasCommaClose ']' s

/-- C7 counterexample: the text `[",,}"]` repairs (trailing-comma rule
firing inside the string literal) to `[",}"]`, which parses as valid
JSON — so it is the output of one application of the repair sequence and
valid JSON — yet a second application changes it again, to `["}"]`:
the repair sequence is not idempotent on already-repaired valid JSON. -/
theorem repair_not_idempotent :
    convert_to_valid_json "[\",,\x7d\"]" = "[\",\x7d\"]" ∧
    (json_loads "[\",\x7d\"]").isSome = true ∧
    convert_to_valid_json "[\",\x7d\"]" ≠ "[\",\x7d\"]" := by
  exact ⟨rfl, rfl, by decide⟩

/-- C7 amended: the repair sequence is idempotent on repaired valid JSON
only in the absence of its trigger patterns: any text containing no
`//`, no `/*`, no single quote, no `None`, no price phrase and no comma
followed by optional whitespace and `}` or `]` (anywhere, string literals
included) is a fixpoint of the repair, so a second application changes
nothing; without this proviso idempotence fails, because the rules also
fire inside string literals of valid JSON. -/
theorem repair_chain_fixpoint (s : String) (h : noTriggers s.data = true) :
    convert_to_valid_json s = s ∧
    convert_to_valid_json (convert_to_valid_json s) = convert_to_valid_json s := by
  simp only [noTriggers, Bool.and_eq_true, Bool.not_eq_true'] at h
  obtain ⟨⟨⟨⟨⟨⟨h1, h2⟩, h3⟩, h4⟩, h5⟩, h6⟩, h7⟩ := h
  have hfix : convert_to_valid_json s = s := by
    obtain ⟨d⟩ := s
    show String.mk (convertChars d) = String.mk d
    simp only [convertChars]
    rw [stripLineCommentsF_id d h1, stripBlockCommentsF_id d h2, rewriteSQF_id d h3,
        replaceF_id pricePhrase priceNullPhrase d h5, replaceF_id "None".data "null".data d h4,
        stripTrailingCommaF_id rbrace d h6, stripTrailingCommaF_id ']' d h7]
  exact ⟨hfix, by rw [hfix]; exact hfix⟩

/-- C7 witness: a concrete already-valid JSON array free of the trigger
patterns is returned unchanged by one and by two repair applications. -/
theorem repair_chain_fixpoint_witness :
    convert_to_valid_json "[\x7b\"item\": \"Milk\", \"price\": 3.99\x7d]" =
      "[\x7b\"item\": \"Milk\", \"price\": 3.99\x7d]" ∧
    convert_to_valid_json
        (convert_to_valid_json "[\x7b\"item\": \"Milk\", \"price\": 3.99\x7d]") =
      convert_to_valid_json "[\x7b\"item\": \"Milk\", \"price\": 3.99\x7d]" := by
  exact repair_chain_fixpoint "[\x7b\"item\": \"Milk\", \"price\": 3.99\x7d]" (by decide)

/-- The `None` replacement changes every text containing `None`. -/
theorem replaceF_none_ne (s : List Char) (h : containsSub "None".data s = true) :
    replaceF "None".data "null".data s.length s ≠ s := by
  induction s with
  | nil => simp [containsSub, isPre] at h
  | cons c rest ih =>
    by_cases hp : isPre "None".data (c :: rest) = true
    · have hc : c = 'N' := by
        have hp2 := hp
        simp only [isPre, Bool.and_eq_true, decide_eq_true_eq] at hp2
        exact hp2.1.symm
      rw [List.length_cons, replaceF, if_pos ⟨by decide, hp⟩]
      intro heq
      have hh := congrArg List.head? heq
      simp only [List.head?_cons] at hh
      rw [hc] at hh
      simp at hh
    · have hct : containsSub "None".data rest = true := by
        rw [containsSub, Bool.or_eq_true] at h
        rcases h with h | h
        · exact absurd h hp
        · exact h
      rw [List.length_cons, replaceF, if_neg ?hcond]
      case hcond =>
        rintro ⟨-, hpre⟩
        exact hp hpre
      intro heq
      injection heq with hh htl
      exact ih hct htl

/-- C8 counterexample: the repair rewrites the characters `None` inside a
quoted string literal — the valid JSON array `["None"]` (a string-valued
element) becomes `["null"]` — so occurrences inside string literals are
not left unchanged. -/
theorem repair_changes_quoted_none :
    convert_to_valid_json "[\"None\"]" = "[\"null\"]" ∧
    ("[\"None\"]" : String) ≠ "[\"null\"]" := by
  exact ⟨rfl, by decide⟩

/-- C8 amended: the `None`-to-`null` transform of the repair step is a
plain textual `str.replace` that substitutes every occurrence of the four
characters `None`, with no exemption for quoted string literals: any
candidate containing a quoted `"None"` — in particular an item name — is
changed by the transform. -/
theorem none_transform_hits_string_literals (a b : String) :
    pyReplace "None" "null" (a ++ "\"None\"" ++ b) ≠ a ++ "\"None\"" ++ b := by
  have hcontains : containsSub "None".data (a ++ "\"None\"" ++ b).data = true := by
    rw [String.data_append, String.data_append, List.append_assoc]
    apply containsSub_append_left
    show containsSub "None".data ('"' :: ("None".data ++ ('"' :: b.data))) = true
    apply containsSub_cons_right
    exact containsSub_of_isPre _ _ (isPre_append_self _ _)
  have hne := replaceF_none_ne (a ++ "\"None\"" ++ b).data hcontains
  intro heq
  apply hne
  exact congrArg String.data heq

end OCRProc
